import Mathlib

/-!
Verification of the unlock helpers module (`src/lib/helpers/unlock.ts`).

This file embeds the module shallowly in Lean:

* JavaScript numbers are modelled by exact rationals (`ℚ`); every identity
  claimed by the specification is an exact-arithmetic statement, and all
  concrete inputs appearing in the claims are exactly representable.
* `Math.round r` is `⌊r + 1/2⌋` (round half towards positive infinity),
  `Math.ceil` is `⌈·⌉`; both agree with the JavaScript functions on exact
  values.
* Strings are Lean `String`s / `List Char`.
* The effectful strategy executors (`fastUnlock`, `pinUnlock`,
  `pinUnlockWithKeyEvent`) are embedded as pure functions of an explicit
  environment that fixes the results of the external collaborator calls
  (the adb channel and the UI driver); they return the trace of collaborator
  calls made, the final outcome (`none` for normal return, `some e` for a
  raised error `e`), and for the PIN path a flag recording whether the
  key-event fallback was taken.
-/

namespace Unlock

/-- A 2D screen position with integer pixel coordinates
(`Position` of `@appium/types`; all positions produced by the module come
out of `Math.round`, hence are integral). -/
structure Position where
  x : ℤ
  y : ℤ
deriving DecidableEq, Repr

/-- JavaScript `Math.round`: round half towards positive infinity. -/
def jsRound (q : ℚ) : ℤ := ⌊q + 1 / 2⌋

/-- A touch action as produced by `getPatternActions`.  `press` and `moveTo`
carry the target coordinates (the `moveTo` coordinates are sums of a rounded
position and multiples of the cell size, hence rational in general);
`release` carries nothing. -/
inductive TouchAction where
  | press (x y : ℚ)
  | moveTo (x y : ℚ)
  | release
deriving DecidableEq, Repr

/-- The tag of a touch action. -/
inductive ActionKind where
  | press
  | moveTo
  | release
deriving DecidableEq, Repr

/-- Tag of a `TouchAction`. -/
def TouchAction.kind : TouchAction → ActionKind
  | .press _ _ => .press
  | .moveTo _ _ => .moveTo
  | .release => .release

/-- Whether a `TouchAction` is a `press`. -/
def TouchAction.isPress : TouchAction → Bool
  | .press _ _ => true
  | _ => false

/-- The code's `key % cols || cols` from `getPatternKeyPosition` (`cols = 3`):
the remainder modulo 3, with a zero remainder replaced by 3
(JavaScript `||` returns the right operand when the left one is `0`). -/
def colFactor (key : ℕ) : ℕ := if key % 3 = 0 then 3 else key % 3

/-- The code's `key % pins || pins` from `getPatternKeyPosition` (`pins = 9`). -/
def rowBase (key : ℕ) : ℕ := if key % 9 = 0 then 9 else key % 9

/-- The code's `Math.ceil((key % pins || pins) / cols)` from `getPatternKeyPosition`. -/
def rowCeil (key : ℕ) : ℤ := ⌈(rowBase key : ℚ) / 3⌉

/-- Embedding of `getPatternKeyPosition(key, initPos, piece)`:

```
const xPos = (key, x, piece) => Math.round(x + (key % cols || cols) * piece - piece / 2);
const yPos = (key, y, piece) => Math.round(y + (Math.ceil((key % pins || pins) / cols) * piece - piece / 2));
```
-/
def getPatternKeyPosition (key : ℕ) (initPos : Position) (piece : ℚ) : Position where
  x := jsRound ((initPos.x : ℚ) + (colFactor key : ℚ) * piece - piece / 2)
  y := jsRound ((initPos.y : ℚ) + ((rowCeil key : ℚ) * piece - piece / 2))

/-- The per-axis `moveTo` offset block of `getPatternActions`, extracted
verbatim (the source repeats it once for `x` and once for `y`):

```
if (diff > 0) { moveTo = piece; if (Math.abs(diff) > piece) { moveTo += piece; } }
else if (diff < 0) { moveTo = -1 * piece; if (Math.abs(diff) > piece) { moveTo -= piece; } }
```
-/
def moveOffset (piece : ℚ) (diff : ℤ) : ℚ :=
  if 0 < diff then
    if piece < ((|diff| : ℤ) : ℚ) then piece + piece else piece
  else if diff < 0 then
    if piece < ((|diff| : ℤ) : ℚ) then -piece - piece else -piece
  else 0

/-- The loop body of `getPatternActions`: processes the remaining keys, given
the first key of the whole sequence (the source branches on
`key === keys[0]`) and the position stored in `lastPos` by the previous
iteration.  The keys are already numbers (the source first coerces string
keys with `parseInt`). -/
def getPatternActionsAux (firstKey : ℕ) (initPos : Position) (piece : ℚ) :
    List ℕ → Position → List TouchAction
  | [], _ => []
  | key :: rest, lastPos =>
    let keyPos := getPatternKeyPosition key initPos piece
    if key = firstKey then
      TouchAction.press (keyPos.x : ℚ) (keyPos.y : ℚ) ::
        getPatternActionsAux firstKey initPos piece rest keyPos
    else
      TouchAction.moveTo (moveOffset piece (keyPos.x - lastPos.x) + (lastPos.x : ℚ))
          (moveOffset piece (keyPos.y - lastPos.y) + (lastPos.y : ℚ)) ::
        getPatternActionsAux firstKey initPos piece rest keyPos

/-- Embedding of `getPatternActions(keys, initPos, piece)`.  The JavaScript
`lastPos` variable starts out uninitialized; it is first read only after an
iteration has assigned it (the first iteration always takes the `press`
branch because its key is `keys[0]`), so the dummy start value `⟨0, 0⟩`
is never observable. -/
def getPatternActions (keys : List ℕ) (initPos : Position) (piece : ℚ) :
    List TouchAction :=
  match keys with
  | [] => [TouchAction.release]
  | k :: rest =>
    getPatternActionsAux k initPos piece (k :: rest) ⟨0, 0⟩ ++ [TouchAction.release]

section SpecSide

/-- Column formula from the specification: `((digit - 1) mod 3) + 1`. -/
def specCol (d : ℕ) : ℕ := (d - 1) % 3 + 1

/-- The specification's per-axis offset rule: zero when the delta is zero,
otherwise the cell size carrying the sign of the delta, with an extra cell
size in the same sign when `|delta|` exceeds the cell size. -/
def specOffset (piece : ℚ) (delta : ℤ) : ℚ :=
  if delta = 0 then 0
  else (Int.sign delta : ℚ) * piece +
    (if piece < ((|delta| : ℤ) : ℚ) then (Int.sign delta : ℚ) * piece else 0)

/-- The move actions the specification prescribes for the digits after the
first: one `moveTo` per digit, located at the previous digit's key position
plus the per-axis `specOffset` of the positional delta. -/
def movesFrom (initPos : Position) (piece : ℚ) : Position → List ℕ → List TouchAction
  | _, [] => []
  | prev, j :: rest =>
    let cur := getPatternKeyPosition j initPos piece
    TouchAction.moveTo ((prev.x : ℚ) + specOffset piece (cur.x - prev.x))
        ((prev.y : ℚ) + specOffset piece (cur.y - prev.y)) ::
      movesFrom initPos piece cur rest

end SpecSide

-- evaluation lemmas for the row ceiling on the nine digits
theorem rowCeil_one : rowCeil 1 = 1 := by norm_num [rowCeil, rowBase, Int.ceil_eq_iff]

theorem rowCeil_two : rowCeil 2 = 1 := by norm_num [rowCeil, rowBase, Int.ceil_eq_iff]

theorem rowCeil_three : rowCeil 3 = 1 := by norm_num [rowCeil, rowBase, Int.ceil_eq_iff]

theorem rowCeil_four : rowCeil 4 = 2 := by norm_num [rowCeil, rowBase, Int.ceil_eq_iff]

theorem rowCeil_five : rowCeil 5 = 2 := by norm_num [rowCeil, rowBase, Int.ceil_eq_iff]

theorem rowCeil_six : rowCeil 6 = 2 := by norm_num [rowCeil, rowBase, Int.ceil_eq_iff]

theorem rowCeil_seven : rowCeil 7 = 3 := by norm_num [rowCeil, rowBase, Int.ceil_eq_iff]

theorem rowCeil_eight : rowCeil 8 = 3 := by norm_num [rowCeil, rowBase, Int.ceil_eq_iff]

theorem rowCeil_nine : rowCeil 9 = 3 := by norm_num [rowCeil, rowBase, Int.ceil_eq_iff]

-- sanity checks on concrete values
example : getPatternKeyPosition 5 ⟨0, 0⟩ 30 = ⟨45, 45⟩ := by
  simp only [getPatternKeyPosition, jsRound, colFactor, rowCeil_five]
  norm_num

example : getPatternKeyPosition 1 ⟨100, 100⟩ 30 = ⟨115, 115⟩ := by
  simp only [getPatternKeyPosition, jsRound, colFactor, rowCeil_one]
  norm_num

example :
    getPatternActions [1, 2] ⟨0, 0⟩ (19 / 10) =
      [TouchAction.press 1 1, TouchAction.moveTo (24 / 5) 1, TouchAction.release] := by
  simp only [getPatternActions, getPatternActionsAux, getPatternKeyPosition, jsRound,
    colFactor, rowCeil_one, rowCeil_two, moveOffset]
  norm_num

/-- On digits 1..9, the column picked by the code (`key % 3 || 3`) agrees with
the specification's `((d - 1) mod 3) + 1`. -/
theorem specCol_eq_colFactor (d : ℕ) (h1 : 1 ≤ d) (h9 : d ≤ 9) :
    specCol d = colFactor d := by
  interval_cases d <;> decide

/-- On digits 1..9, the specification's row `⌈d / 3⌉` agrees with the code's
`Math.ceil((d % 9 || 9) / 3)`. -/
theorem specRow_eq_rowCeil (d : ℕ) (h1 : 1 ≤ d) (h9 : d ≤ 9) :
    ⌈(d : ℚ) / 3⌉ = rowCeil d := by
  interval_cases d <;>
    simp only [rowCeil_one, rowCeil_two, rowCeil_three, rowCeil_four, rowCeil_five,
      rowCeil_six, rowCeil_seven, rowCeil_eight, rowCeil_nine] <;>
    norm_num [Int.ceil_eq_iff]

/-- C1: for every digit `d ∈ 1..9`, every integer origin and every positive
cell size, `getPatternKeyPosition` returns
`x = round(origin.x + column * cellSize - cellSize/2)` and
`y = round(origin.y + row * cellSize - cellSize/2)` with
`column = ((d - 1) mod 3) + 1` and `row = ⌈d / 3⌉`; in particular the code's
`key % cols || cols` and `Math.ceil((key % pins || pins) / cols)` coincide
with this column/row formula on 1..9. -/
theorem getPatternKeyPosition_matches_spec_formula (d : ℕ) (h1 : 1 ≤ d) (h9 : d ≤ 9)
    (pos : Position) (p : ℚ) (hp : 0 < p) :
    getPatternKeyPosition d pos p =
      ⟨jsRound ((pos.x : ℚ) + (specCol d : ℚ) * p - p / 2),
       jsRound ((pos.y : ℚ) + (⌈(d : ℚ) / 3⌉ : ℚ) * p - p / 2)⟩ := by
  rw [specCol_eq_colFactor d h1 h9, specRow_eq_rowCeil d h1 h9]
  simp only [getPatternKeyPosition, Position.mk.injEq]
  exact ⟨trivial, congrArg jsRound (by ring)⟩

/-- Witness for C1 at digit 5, origin `(0, 0)`, cell size 30. -/
theorem getPatternKeyPosition_matches_spec_formula_witness :
    0 < (30 : ℚ) ∧
      getPatternKeyPosition 5 ⟨0, 0⟩ 30 =
        ⟨jsRound (((0 : ℤ) : ℚ) + (specCol 5 : ℚ) * 30 - 30 / 2),
         jsRound (((0 : ℤ) : ℚ) + (⌈((5 : ℕ) : ℚ) / 3⌉ : ℚ) * 30 - 30 / 2)⟩ :=
  ⟨by norm_num,
   getPatternKeyPosition_matches_spec_formula 5 (by norm_num) (by norm_num) ⟨0, 0⟩ 30
     (by norm_num)⟩

/-- Counterexample for C3: the spec's test table says
`keyPosition(5, (0,0), 30) = (15, 15)`, but the code computes `(45, 45)`
(the table's literals use zero-based columns and rows, contradicting both the
spec's own formula and the code). -/
theorem getPatternKeyPosition_table_counterexample :
    getPatternKeyPosition 5 ⟨0, 0⟩ 30 = ⟨45, 45⟩ ∧
      getPatternKeyPosition 5 ⟨0, 0⟩ 30 ≠ ⟨15, 15⟩ := by
  constructor <;>
    · simp only [getPatternKeyPosition, jsRound, colFactor, rowCeil_five, ne_eq,
        Position.mk.injEq]
      norm_num

-- evaluation lemmas for the column factor on the nine digits
theorem colFactor_one : colFactor 1 = 1 := by decide

theorem colFactor_two : colFactor 2 = 2 := by decide

theorem colFactor_three : colFactor 3 = 3 := by decide

/-- The code's per-axis offset block computes exactly the specification's
offset rule. -/
theorem moveOffset_eq_specOffset (p : ℚ) (d : ℤ) : moveOffset p d = specOffset p d := by
  rcases lt_trichotomy d 0 with h | h | h
  · have hs : Int.sign d = -1 := Int.sign_eq_neg_one_of_neg h
    have hd : ¬0 < d := by omega
    have hne : d ≠ 0 := by omega
    simp only [moveOffset, specOffset, if_neg hd, if_pos h, if_neg hne, hs]
    push_cast
    split <;> ring
  · subst h
    simp [moveOffset, specOffset]
  · have hs : Int.sign d = 1 := Int.sign_eq_one_of_pos h
    have hd : ¬d < 0 := by omega
    have hne : d ≠ 0 := by omega
    simp only [moveOffset, specOffset, if_pos h, if_neg hne, hs]
    push_cast
    split <;> ring

/-- When no remaining key equals the first key of the sequence, every loop
iteration of `getPatternActions` takes the `moveTo` branch and emits exactly
the specification's move action. -/
theorem getPatternActionsAux_eq_movesFrom (f : ℕ) (pos : Position) (p : ℚ) :
    ∀ (l : List ℕ) (prev : Position), (∀ j ∈ l, j ≠ f) →
      getPatternActionsAux f pos p l prev = movesFrom pos p prev l := by
  intro l
  induction l with
  | nil => intro prev _; rfl
  | cons j rest ih =>
    intro prev h
    have hj : j ≠ f := h j (List.mem_cons_self j rest)
    simp only [getPatternActionsAux, movesFrom, if_neg hj, moveOffset_eq_specOffset]
    rw [ih _ fun x hx => h x (List.mem_cons_of_mem j hx)]
    congr 1
    congr 1 <;> exact add_comm _ _

/-- Closed form of `getPatternActions` on a sequence whose tail never repeats
the head: one press at the first digit's key position, then the
specification's move actions, then one release. -/
theorem getPatternActions_closed_form (k : ℕ) (rest : List ℕ) (pos : Position) (p : ℚ)
    (h : ∀ j ∈ rest, j ≠ k) :
    getPatternActions (k :: rest) pos p =
      TouchAction.press ((getPatternKeyPosition k pos p).x : ℚ)
          ((getPatternKeyPosition k pos p).y : ℚ) ::
        (movesFrom pos p (getPatternKeyPosition k pos p) rest ++ [TouchAction.release]) := by
  simp only [getPatternActions, getPatternActionsAux, eq_self_iff_true, if_true,
    List.cons_append]
  rw [getPatternActionsAux_eq_movesFrom k pos p rest _ h]

/-- Each key contributes exactly one action to `movesFrom`. -/
theorem movesFrom_length (pos : Position) (p : ℚ) :
    ∀ (l : List ℕ) (prev : Position), (movesFrom pos p prev l).length = l.length := by
  intro l
  induction l with
  | nil => intro prev; rfl
  | cons j rest ih => intro prev; simp [movesFrom, ih]

/-- All actions produced by `movesFrom` are `moveTo` actions. -/
theorem movesFrom_kinds (pos : Position) (p : ℚ) :
    ∀ (l : List ℕ) (prev : Position),
      (movesFrom pos p prev l).map TouchAction.kind =
        List.replicate l.length ActionKind.moveTo := by
  intro l
  induction l with
  | nil => intro prev; rfl
  | cons j rest ih =>
    intro prev
    simp [movesFrom, ih, TouchAction.kind, List.replicate_succ]

/-- A zero positional delta yields a zero offset. -/
theorem specOffset_zero (p : ℚ) : specOffset p 0 = 0 := by
  simp [specOffset]

/-- For a positive integer cell size `n`, a positional delta of exactly `n`
yields an offset of `n` (single step). -/
theorem specOffset_single (n : ℕ) (hn : 0 < n) : specOffset (n : ℚ) (n : ℤ) = (n : ℚ) := by
  have hne : (n : ℤ) ≠ 0 := by omega
  have hs : Int.sign (n : ℤ) = 1 := Int.sign_eq_one_of_pos (by omega)
  have habs : |(n : ℤ)| = (n : ℤ) := abs_of_pos (by omega)
  simp only [specOffset, if_neg hne, hs, habs]
  push_cast
  simp

/-- For a positive integer cell size `n`, a positional delta of exactly `2n`
yields an offset of `2n` (doubled step). -/
theorem specOffset_double (n : ℕ) (hn : 0 < n) :
    specOffset (n : ℚ) (2 * (n : ℤ)) = 2 * (n : ℚ) := by
  have hne : 2 * (n : ℤ) ≠ 0 := by omega
  have hs : Int.sign (2 * (n : ℤ)) = 1 := Int.sign_eq_one_of_pos (by omega)
  have habs : |2 * (n : ℤ)| = 2 * (n : ℤ) := abs_of_pos (by omega)
  have hn' : (0 : ℚ) < (n : ℚ) := by exact_mod_cast hn
  have hlt : (n : ℚ) < ((2 * (n : ℤ) : ℤ) : ℚ) := by push_cast; linarith
  simp only [specOffset, if_neg hne, hs, habs, if_pos hlt]
  push_cast
  ring

/-- For an integer cell size, moving one column to the right (digit 1 → 2)
shifts the rounded x-coordinate by exactly the cell size and keeps y. -/
theorem keyPos_two_sub_one (pos : Position) (n : ℕ) :
    (getPatternKeyPosition 2 pos (n : ℚ)).x - (getPatternKeyPosition 1 pos (n : ℚ)).x = (n : ℤ) ∧
      (getPatternKeyPosition 2 pos (n : ℚ)).y = (getPatternKeyPosition 1 pos (n : ℚ)).y := by
  constructor
  · simp only [getPatternKeyPosition, jsRound, colFactor_one, colFactor_two]
    rw [show ((pos.x : ℚ) + ((2 : ℕ) : ℚ) * (n : ℚ) - (n : ℚ) / 2 + 1 / 2 : ℚ) =
        ((pos.x : ℚ) + ((1 : ℕ) : ℚ) * (n : ℚ) - (n : ℚ) / 2 + 1 / 2) + ((n : ℤ) : ℚ) by
      push_cast; ring, Int.floor_add_int]
    ring
  · simp only [getPatternKeyPosition, rowCeil_one, rowCeil_two]

/-- For an integer cell size, moving two columns to the right (digit 1 → 3)
shifts the rounded x-coordinate by exactly twice the cell size and keeps y. -/
theorem keyPos_three_sub_one (pos : Position) (n : ℕ) :
    (getPatternKeyPosition 3 pos (n : ℚ)).x - (getPatternKeyPosition 1 pos (n : ℚ)).x =
        2 * (n : ℤ) ∧
      (getPatternKeyPosition 3 pos (n : ℚ)).y = (getPatternKeyPosition 1 pos (n : ℚ)).y := by
  constructor
  · simp only [getPatternKeyPosition, jsRound, colFactor_one, colFactor_three]
    rw [show ((pos.x : ℚ) + ((3 : ℕ) : ℚ) * (n : ℚ) - (n : ℚ) / 2 + 1 / 2 : ℚ) =
        ((pos.x : ℚ) + ((1 : ℕ) : ℚ) * (n : ℚ) - (n : ℚ) / 2 + 1 / 2) + ((2 * n : ℤ) : ℚ) by
      push_cast; ring, Int.floor_add_int]
    ring
  · simp only [getPatternKeyPosition, rowCeil_one, rowCeil_three]

/-- Counterexample for C2: at cell size `19/10` (a positive, non-integer
cell size) the adjacent move from digit 1 to digit 2 is emitted with
x-offset `24/5 - 1 = 19/5`, whose magnitude is twice the cell size, not the
cell size (the rounded key positions are 1 and 3, so the positional delta 2
exceeds `19/10` and the code doubles the step). -/
theorem getPatternActions_adjacent_counterexample :
    getPatternActions [1, 2] ⟨0, 0⟩ (19 / 10) =
        [TouchAction.press 1 1, TouchAction.moveTo (24 / 5) 1, TouchAction.release] ∧
      (24 : ℚ) / 5 - 1 ≠ 19 / 10 ∧ (24 : ℚ) / 5 - 1 ≠ -(19 / 10) := by
  refine ⟨?_, by norm_num, by norm_num⟩
  simp only [getPatternActions, getPatternActionsAux, getPatternKeyPosition, jsRound,
    colFactor, rowCeil_one, rowCeil_two, moveOffset]
  norm_num

/-- C2 (amended): for every pattern over distinct digits 1..9 of length ≥ 2,
every integer origin, and every positive cell size, each `moveTo` emitted for
a subsequent digit is located at the previous digit's key position plus the
per-axis offset rule `specOffset` (zero offset for a zero delta, otherwise
the cell size in the sign of the delta, doubled when `|delta|` exceeds the
cell size); and for every positive *integer* cell size, the adjacent move
digit 1 → digit 2 has offset exactly the cell size on the moving axis, and
the skip-over move digit 1 → digit 3 has offset exactly twice the cell size. -/
theorem getPatternActions_moveTo_offsets :
    (∀ (k : ℕ) (rest : List ℕ) (pos : Position) (p : ℚ), 0 < p →
      (∀ j ∈ k :: rest, 1 ≤ j ∧ j ≤ 9) → (k :: rest).Nodup → 2 ≤ (k :: rest).length →
      getPatternActions (k :: rest) pos p =
        TouchAction.press ((getPatternKeyPosition k pos p).x : ℚ)
            ((getPatternKeyPosition k pos p).y : ℚ) ::
          (movesFrom pos p (getPatternKeyPosition k pos p) rest ++ [TouchAction.release])) ∧
    (∀ (pos : Position) (n : ℕ), 0 < n →
      getPatternActions [1, 2] pos (n : ℚ) =
        [TouchAction.press ((getPatternKeyPosition 1 pos (n : ℚ)).x : ℚ)
            ((getPatternKeyPosition 1 pos (n : ℚ)).y : ℚ),
         TouchAction.moveTo (((getPatternKeyPosition 1 pos (n : ℚ)).x : ℚ) + (n : ℚ))
            ((getPatternKeyPosition 1 pos (n : ℚ)).y : ℚ),
         TouchAction.release]) ∧
    (∀ (pos : Position) (n : ℕ), 0 < n →
      getPatternActions [1, 3] pos (n : ℚ) =
        [TouchAction.press ((getPatternKeyPosition 1 pos (n : ℚ)).x : ℚ)
            ((getPatternKeyPosition 1 pos (n : ℚ)).y : ℚ),
         TouchAction.moveTo (((getPatternKeyPosition 1 pos (n : ℚ)).x : ℚ) + 2 * (n : ℚ))
            ((getPatternKeyPosition 1 pos (n : ℚ)).y : ℚ),
         TouchAction.release]) := by
  refine ⟨?_, ?_, ?_⟩
  · intro k rest pos p hp hdig hnd hlen
    have hk : ∀ j ∈ rest, j ≠ k := by
      intro j hj he
      exact (List.nodup_cons.mp hnd).1 (he ▸ hj)
    exact getPatternActions_closed_form k rest pos p hk
  · intro pos n hn
    rw [getPatternActions_closed_form 1 [2] pos (n : ℚ) (by simp)]
    obtain ⟨hx, hy⟩ := keyPos_two_sub_one pos n
    simp only [movesFrom, hx, hy, sub_self, specOffset_zero, add_zero,
      specOffset_single n hn, List.cons_append, List.nil_append]
  · intro pos n hn
    rw [getPatternActions_closed_form 1 [3] pos (n : ℚ) (by simp)]
    obtain ⟨hx, hy⟩ := keyPos_three_sub_one pos n
    simp only [movesFrom, hx, hy, sub_self, specOffset_zero, add_zero,
      specOffset_double n hn, List.cons_append, List.nil_append]

/-- Witness for C2 (amended) at the adjacent move 1 → 2, origin `(0, 0)`,
integer cell size 30. -/
theorem getPatternActions_moveTo_offsets_witness :
    getPatternActions [1, 2] ⟨0, 0⟩ ((30 : ℕ) : ℚ) =
      [TouchAction.press ((getPatternKeyPosition 1 ⟨0, 0⟩ ((30 : ℕ) : ℚ)).x : ℚ)
          ((getPatternKeyPosition 1 ⟨0, 0⟩ ((30 : ℕ) : ℚ)).y : ℚ),
       TouchAction.moveTo
          (((getPatternKeyPosition 1 ⟨0, 0⟩ ((30 : ℕ) : ℚ)).x : ℚ) + ((30 : ℕ) : ℚ))
          ((getPatternKeyPosition 1 ⟨0, 0⟩ ((30 : ℕ) : ℚ)).y : ℚ),
       TouchAction.release] :=
  getPatternActions_moveTo_offsets.2.1 ⟨0, 0⟩ 30 (by norm_num)

/-- C6: for a pattern of `N ≥ 2` distinct digits 1..9, `getPatternActions`
returns exactly `N + 1` touch actions: a `press` first, then `N - 1`
`moveTo` actions, then a final `release`. -/
theorem getPatternActions_shape (keys : List ℕ) (pos : Position) (p : ℚ)
    (hdig : ∀ j ∈ keys, 1 ≤ j ∧ j ≤ 9) (hnd : keys.Nodup) (hlen : 2 ≤ keys.length) :
    (getPatternActions keys pos p).length = keys.length + 1 ∧
      (getPatternActions keys pos p).map TouchAction.kind =
        ActionKind.press ::
          (List.replicate (keys.length - 1) ActionKind.moveTo ++ [ActionKind.release]) := by
  cases keys with
  | nil => simp at hlen
  | cons k rest =>
    have hk : ∀ j ∈ rest, j ≠ k := fun j hj he => (List.nodup_cons.mp hnd).1 (he ▸ hj)
    rw [getPatternActions_closed_form k rest pos p hk]
    constructor
    · simp [movesFrom_length]
    · simp [movesFrom_kinds, TouchAction.kind]

/-- Witness for C6 at the pattern `[1, 5, 9]`, origin `(0, 0)`,
cell size 30. -/
theorem getPatternActions_shape_witness :
    (getPatternActions [1, 5, 9] ⟨0, 0⟩ 30).length = [1, 5, 9].length + 1 ∧
      (getPatternActions [1, 5, 9] ⟨0, 0⟩ 30).map TouchAction.kind =
        ActionKind.press ::
          (List.replicate ([1, 5, 9].length - 1) ActionKind.moveTo ++ [ActionKind.release]) :=
  getPatternActions_shape [1, 5, 9] ⟨0, 0⟩ 30 (by decide) (by decide) (by decide)

/-- The loop of `getPatternActions` pushes exactly one action per key. -/
theorem getPatternActionsAux_length (f : ℕ) (pos : Position) (p : ℚ) :
    ∀ (l : List ℕ) (prev : Position),
      (getPatternActionsAux f pos p l prev).length = l.length := by
  intro l
  induction l with
  | nil => intro prev; rfl
  | cons j rest ih =>
    intro prev
    simp only [getPatternActionsAux]
    split <;> simp [ih]

/-- The loop of `getPatternActions` emits one press per key equal to the
first key (and no other press). -/
theorem getPatternActionsAux_countP (f : ℕ) (pos : Position) (p : ℚ) :
    ∀ (l : List ℕ) (prev : Position),
      (getPatternActionsAux f pos p l prev).countP TouchAction.isPress =
        l.countP (fun j => j == f) := by
  intro l
  induction l with
  | nil => intro prev; rfl
  | cons j rest ih =>
    intro prev
    simp only [getPatternActionsAux]
    split
    · next h => simp [List.countP_cons, ih, TouchAction.isPress, h]
    · next h => simp [List.countP_cons, ih, TouchAction.isPress, h]

/-- Wherever a key equals the first key, the loop of `getPatternActions`
emits a press at the first key's position (the `key === keys[0]` branch). -/
theorem getPatternActionsAux_getElem (f : ℕ) (pos : Position) (p : ℚ) :
    ∀ (l : List ℕ) (prev : Position) (i : ℕ), l[i]? = some f →
      (getPatternActionsAux f pos p l prev)[i]? =
        some (TouchAction.press ((getPatternKeyPosition f pos p).x : ℚ)
          ((getPatternKeyPosition f pos p).y : ℚ)) := by
  intro l
  induction l with
  | nil => intro prev i h; simp at h
  | cons j rest ih =>
    intro prev i h
    cases i with
    | zero =>
      simp only [List.getElem?_cons_zero, Option.some.injEq] at h
      subst h
      simp [getPatternActionsAux]
    | succ i =>
      simp only [List.getElem?_cons_succ] at h
      simp only [getPatternActionsAux]
      split <;>
        · simp only [List.getElem?_cons_succ]
          exact ih (getPatternKeyPosition j pos p) i h

/-- C10: for every non-empty key sequence whose first element recurs later,
`getPatternActions` emits a press — not a `moveTo` — at each such later
occurrence (the loop branches on `key === keys[0]`), so the result contains
at least two presses, while still having length `N + 1` with a final
release. -/
theorem getPatternActions_repeated_first (k : ℕ) (rest : List ℕ) (pos : Position) (p : ℚ)
    (hrep : k ∈ rest) :
    (getPatternActions (k :: rest) pos p).length = (k :: rest).length + 1 ∧
      (getPatternActions (k :: rest) pos p).getLast? = some TouchAction.release ∧
      2 ≤ (getPatternActions (k :: rest) pos p).countP TouchAction.isPress ∧
      (∀ i : ℕ, (k :: rest)[i]? = some k →
        (getPatternActions (k :: rest) pos p)[i]? =
          some (TouchAction.press ((getPatternKeyPosition k pos p).x : ℚ)
            ((getPatternKeyPosition k pos p).y : ℚ))) := by
  have hact : getPatternActions (k :: rest) pos p =
      getPatternActionsAux k pos p (k :: rest) ⟨0, 0⟩ ++ [TouchAction.release] := rfl
  refine ⟨?_, ?_, ?_, ?_⟩
  · rw [hact]
    simp [getPatternActionsAux_length]
  · rw [hact]
    exact List.getLast?_concat _
  · rw [hact, List.countP_append, getPatternActionsAux_countP]
    have h1 : 0 < rest.countP (fun j => j == k) :=
      List.countP_pos_iff.mpr ⟨k, hrep, by simp⟩
    have h2 : (k :: rest).countP (fun j => j == k) =
        rest.countP (fun j => j == k) + 1 := by
      simp [List.countP_cons]
    omega
  · intro i h
    have hi : i < (k :: rest).length := by
      by_contra hlt
      push_neg at hlt
      rw [List.getElem?_eq_none hlt] at h
      cases h
    rw [hact,
      List.getElem?_append_left (by rw [getPatternActionsAux_length]; exact hi)]
    exact getPatternActionsAux_getElem k pos p _ _ i h

/-- Witness for C10 at the key sequence `[1, 2, 1]`, origin `(0, 0)`,
cell size 30: the result contains at least two presses. -/
theorem getPatternActions_repeated_first_witness :
    2 ≤ (getPatternActions (1 :: [2, 1]) ⟨0, 0⟩ 30).countP TouchAction.isPress :=
  (getPatternActions_repeated_first 1 [2, 1] ⟨0, 0⟩ 30 (by decide)).2.2.1

/-- C3 (amended): the literal values `getPatternKeyPosition` actually returns
on the table's inputs: `(5,(0,0),30) ↦ (45,45)`, `(1,(0,0),30) ↦ (15,15)`,
and for origin `(100,100)` with cell size 30: digit 1 ↦ `(115,115)`,
digit 9 ↦ `(175,175)`, digit 5 ↦ `(145,145)`. -/
theorem getPatternKeyPosition_table_corrected :
    getPatternKeyPosition 5 ⟨0, 0⟩ 30 = ⟨45, 45⟩ ∧
      getPatternKeyPosition 1 ⟨0, 0⟩ 30 = ⟨15, 15⟩ ∧
      getPatternKeyPosition 1 ⟨100, 100⟩ 30 = ⟨115, 115⟩ ∧
      getPatternKeyPosition 9 ⟨100, 100⟩ 30 = ⟨175, 175⟩ ∧
      getPatternKeyPosition 5 ⟨100, 100⟩ 30 = ⟨145, 145⟩ := by
  refine ⟨?_, ?_, ?_, ?_, ?_⟩ <;>
    · simp only [getPatternKeyPosition, jsRound, colFactor, rowCeil_one, rowCeil_five,
        rowCeil_nine, Position.mk.injEq]
      norm_num

/-! ## Password encoding (`encodePassword`) -/

/-- The character class of the JavaScript regex `\s`: tab, line feed,
vertical tab, form feed, carriage return, space, no-break space, ogham space
mark, the en-quad..hair-space range, line separator, paragraph separator,
narrow no-break space, medium mathematical space, ideographic space, and the
byte-order mark. -/
def jsWhitespace (c : Char) : Bool :=
  c == '\t' || c == '\n' || c.toNat == 0x0B || c.toNat == 0x0C || c == '\r' || c == ' ' ||
    c.toNat == 0xA0 || c.toNat == 0x1680 ||
    (0x2000 ≤ c.toNat && c.toNat ≤ 0x200A) ||
    c.toNat == 0x2028 || c.toNat == 0x2029 || c.toNat == 0x202F || c.toNat == 0x205F ||
    c.toNat == 0x3000 || c.toNat == 0xFEFF

/-- Core of `encodePassword`: ``key.replace(/\s/gi, '%s')``.  The pattern
`\s` matches a single character, so the global replace substitutes `%s` for
each whitespace character individually. -/
def encodePasswordList (l : List Char) : List Char :=
  l.flatMap fun c => if jsWhitespace c then ['%', 's'] else [c]

/-- Embedding of `encodePassword(key)`. -/
def encodePassword (key : String) : String := String.mk (encodePasswordList key.data)

/-- Counterexample for C4: on `"a  b"` (two consecutive spaces) the code
produces `"a%s%sb"` — one `%s` per whitespace character — not the single
`%s` per whitespace run that the claim states. -/
theorem encodePassword_run_counterexample :
    encodePassword "a  b" = "a%s%sb" ∧ encodePassword "a  b" ≠ "a%sb" := by
  constructor <;> decide

/-- Since `encodePassword` processes characters independently, it distributes
over concatenation. -/
theorem encodePasswordList_append (a b : List Char) :
    encodePasswordList (a ++ b) = encodePasswordList a ++ encodePasswordList b :=
  List.flatMap_append a b _

/-- An all-whitespace run of length `k` is encoded as `k` copies of `%s`. -/
theorem encodePasswordList_whitespace (run : List Char)
    (hrun : ∀ c ∈ run, jsWhitespace c = true) :
    encodePasswordList run = (List.replicate run.length ['%', 's']).flatten := by
  induction run with
  | nil => rfl
  | cons c cs ih =>
    have hc : jsWhitespace c = true := hrun c (List.mem_cons_self c cs)
    simp only [encodePasswordList, List.flatMap_cons, hc, if_true, List.length_cons,
      List.replicate_succ, List.flatten_cons]
    rw [show cs.flatMap (fun c => if jsWhitespace c then ['%', 's'] else [c]) =
        encodePasswordList cs from rfl,
      ih fun x hx => hrun x (List.mem_cons_of_mem c hx)]

/-- C4 (amended): `encodePassword` replaces every whitespace character with
one occurrence of `%s` — a maximal run of `k` whitespace characters yields
`k` consecutive occurrences of `%s` — and leaves every non-whitespace
character unchanged. -/
theorem encodePassword_per_character (pre run post : List Char)
    (hrun : ∀ c ∈ run, jsWhitespace c = true) :
    encodePasswordList (pre ++ run ++ post) =
        encodePasswordList pre ++
          (List.replicate run.length ['%', 's']).flatten ++ encodePasswordList post ∧
      ∀ c : Char, jsWhitespace c = false → encodePasswordList [c] = [c] := by
  constructor
  · rw [encodePasswordList_append, encodePasswordList_append,
      encodePasswordList_whitespace run hrun]
  · intro c hc
    simp [encodePasswordList, hc]

/-- Witness for C4 (amended) at `pre = "a"`, `run = "  "`, `post = "b"`. -/
theorem encodePassword_per_character_witness :
    encodePasswordList ("a".data ++ "  ".data ++ "b".data) =
        encodePasswordList "a".data ++
          (List.replicate "  ".data.length ['%', 's']).flatten ++ encodePasswordList "b".data :=
  (encodePassword_per_character "a".data "  ".data "b".data (by decide)).1

/-! ## Password key validation (the `PASSWORD_UNLOCK` branch of
`validateUnlockCapabilities`) -/

/-- The line terminators that the JavaScript regex `.` (without the `s`
flag) does not match: line feed, carriage return, line separator, paragraph
separator. -/
def isLineTerminator (c : Char) : Bool :=
  c == '\n' || c == '\r' || c.toNat == 0x2028 || c.toNat == 0x2029

/-- Whether the first four characters exist and are all matched by `.`. -/
def cleanPrefix4 : List Char → Bool
  | a :: b :: c :: d :: _ =>
    !isLineTerminator a && !isLineTerminator b && !isLineTerminator c && !isLineTerminator d
  | _ => false

/-- The regex search `/.{4,}/.test(key)`: succeeds iff some position starts
four consecutive characters matched by `.` (an unanchored search; `{4,}` is
satisfiable iff a window of four is). -/
def dotRun4 : List Char → Bool
  | [] => false
  | a :: t => cleanPrefix4 (a :: t) || dotRun4 t

/-- Embedding of the password branch of `validateUnlockCapabilities`:
`/.{4,}/g.test(String(unlockKey))` — `true` iff validation passes, `false`
iff the "minimum allowed length is 4 characters" error is thrown.  The key
is not trimmed. -/
def validatePasswordKey (key : String) : Bool := dotRun4 key.data

/-- A list shorter than four characters has no clean four-prefix. -/
theorem cleanPrefix4_eq_false_of_short (l : List Char) (h : l.length < 4) :
    cleanPrefix4 l = false := by
  match l with
  | [] => rfl
  | [_] => rfl
  | [_, _] => rfl
  | [_, _, _] => rfl
  | _ :: _ :: _ :: _ :: _ => simp at h; omega

/-- Characterization: `dotRun4` is the existence of a four-character window free of line
terminators. -/
theorem dotRun4_iff (l : List Char) :
    dotRun4 l = true ↔
      ∃ s w t : List Char, l = s ++ w ++ t ∧ w.length = 4 ∧
        ∀ c ∈ w, isLineTerminator c = false := by
  constructor
  · intro h
    induction l with
    | nil => simp [dotRun4] at h
    | cons a t ih =>
      rw [dotRun4, Bool.or_eq_true] at h
      rcases h with h | h
      · match t, h with
        | b :: c :: d :: rest, h =>
          refine ⟨[], [a, b, c, d], rest, rfl, rfl, ?_⟩
          simp only [cleanPrefix4, Bool.and_eq_true, Bool.not_eq_true'] at h
          intro x hx
          simp only [List.mem_cons, List.not_mem_nil, or_false] at hx
          rcases hx with rfl | rfl | rfl | rfl
          · exact h.1.1.1
          · exact h.1.1.2
          · exact h.1.2
          · exact h.2
      · obtain ⟨s, w, t', rfl, hw, hclean⟩ := ih h
        exact ⟨a :: s, w, t', rfl, hw, hclean⟩
  · rintro ⟨s, w, t, rfl, hw, hclean⟩
    induction s with
    | nil =>
      match w, hw with
      | [a, b, c, d], _ =>
        rw [List.nil_append, List.cons_append, dotRun4, Bool.or_eq_true]
        left
        simp only [List.cons_append, cleanPrefix4, Bool.and_eq_true, Bool.not_eq_true']
        exact ⟨⟨⟨hclean a (by simp), hclean b (by simp)⟩, hclean c (by simp)⟩,
          hclean d (by simp)⟩
    | cons x s' ih =>
      have hx : (x :: s') ++ w ++ t = x :: (s' ++ w ++ t) := by simp
      rw [hx, dotRun4, Bool.or_eq_true]
      exact Or.inr ih

/-- Keys shorter than four characters are always rejected. -/
theorem dotRun4_eq_false_of_short (l : List Char) (h : l.length ≤ 3) :
    dotRun4 l = false := by
  induction l with
  | nil => rfl
  | cons a t ih =>
    have hlt : t.length ≤ 3 := by
      simp only [List.length_cons] at h
      omega
    have h1 : cleanPrefix4 (a :: t) = false := by
      refine cleanPrefix4_eq_false_of_short _ ?_
      simp only [List.length_cons] at h ⊢
      omega
    rw [dotRun4, h1, ih hlt]
    rfl

/-- Counterexample for C5: the key `"ab\ncd"` has length 5 ≥ 4, yet the
code rejects it — `/.{4,}/` finds no four consecutive characters free of
line terminators — so acceptance does not depend only on the character
count. -/
theorem validatePasswordKey_counterexample :
    4 ≤ ("ab\ncd" : String).length ∧ validatePasswordKey "ab\ncd" = false := by
  constructor <;> decide

/-- C5 (amended): the password branch of `validateUnlockCapabilities` does
not trim the key and accepts exactly the keys containing four consecutive
characters none of which is a line terminator (LF, CR, U+2028, U+2029); for
keys without line terminators — including all-space strings — this is
exactly the keys of length ≥ 4, and every key of length ≤ 3 is rejected
with the "minimum allowed length is 4 characters" error. -/
theorem validatePasswordKey_characterization (key : String) :
    (validatePasswordKey key = true ↔
      ∃ s w t : List Char, key.data = s ++ w ++ t ∧ w.length = 4 ∧
        ∀ c ∈ w, isLineTerminator c = false) ∧
      ((∀ c ∈ key.data, isLineTerminator c = false) →
        (validatePasswordKey key = true ↔ 4 ≤ key.length)) ∧
      (key.length ≤ 3 → validatePasswordKey key = false) := by
  refine ⟨dotRun4_iff key.data, ?_, ?_⟩
  · intro hfree
    simp only [validatePasswordKey]
    rw [dotRun4_iff key.data]
    constructor
    · rintro ⟨s, w, t, heq, hw, _⟩
      have hlen : key.length = key.data.length := rfl
      rw [hlen, heq]
      simp only [List.length_append, hw]
      omega
    · intro hlen
      have hlen' : 4 ≤ key.data.length := hlen
      refine ⟨[], key.data.take 4, key.data.drop 4, by simp, ?_, ?_⟩
      · rw [List.length_take]
        omega
      · intro c hc
        exact hfree c (List.mem_of_mem_take hc)
  · intro hshort
    exact dotRun4_eq_false_of_short key.data hshort

/-- Witness for C5 (amended) at the all-space key `"    "` of length 4:
accepted. -/
theorem validatePasswordKey_witness : validatePasswordKey "    " = true :=
  ((validatePasswordKey_characterization "    ").2.1 (by decide)).mpr (by decide)

/-! ## Fast unlock (`fastUnlock`) -/

/-- The adb-channel calls `fastUnlock` can make, with their arguments. -/
inductive AdbCall where
  | isLockEnabled
  | clearLockCredential (credential : String)
  | cycleWakeUp
  | dismissKeyguard
  | setLockCredential (credentialType credential : String)
deriving DecidableEq, Repr

/-- The behaviour of the adb channel for one `fastUnlock` run: the value
returned by `isLockEnabled()` and, for each awaited command, `none` when it
resolves and `some e` when it rejects with error `e`. -/
structure FastUnlockEnv where
  lockEnabled : Bool
  clearResult : Option String
  cycleResult : Option String
  dismissResult : Option String
  setResult : Option String
deriving DecidableEq, Repr

/-- Embedding of `fastUnlock(adb, opts)`: returns the ordered trace of adb
calls made and the outcome (`none` = normal return, `some e` = the error
propagated to the caller).  A rejected `await` aborts the function at that
point; the `try`/`finally` around `dismissKeyguard()` runs
`setLockCredential` whenever a lock had been enabled, and an error raised in
the `finally` block replaces the original one (JavaScript semantics). -/
def fastUnlock (env : FastUnlockEnv) (credentialType credential : String) :
    List AdbCall × Option String :=
  if env.lockEnabled then
    match env.clearResult with
    | some e => ([AdbCall.isLockEnabled, AdbCall.clearLockCredential credential], some e)
    | none =>
      match env.cycleResult with
      | some e =>
        ([AdbCall.isLockEnabled, AdbCall.clearLockCredential credential,
          AdbCall.cycleWakeUp], some e)
      | none =>
        ([AdbCall.isLockEnabled, AdbCall.clearLockCredential credential,
          AdbCall.cycleWakeUp, AdbCall.dismissKeyguard,
          AdbCall.setLockCredential credentialType credential],
         match env.dismissResult, env.setResult with
         | none, none => none
         | none, some e => some e
         | some e, none => some e
         | some _, some e2 => some e2)
  else
    ([AdbCall.isLockEnabled, AdbCall.dismissKeyguard], env.dismissResult)

/-- Counterexample for C7: when `isLockEnabled()` returns `true` but
`clearLockCredential` itself rejects, `fastUnlock` exits on a path that
never invokes `setLockCredential` — so restoration does **not** run on every
exit path on which a lock was detected. -/
theorem fastUnlock_restore_counterexample :
    (⟨true, some "clear failed", none, none, none⟩ : FastUnlockEnv).lockEnabled = true ∧
      AdbCall.setLockCredential "pin" "1234" ∉
        (fastUnlock ⟨true, some "clear failed", none, none, none⟩ "pin" "1234").1 ∧
      (fastUnlock ⟨true, some "clear failed", none, none, none⟩ "pin" "1234").2 =
        some "clear failed" := by
  refine ⟨rfl, ?_, rfl⟩
  decide

/-- C7 (amended): whenever `isLockEnabled()` returned `true` and the
credential-clearing step (`clearLockCredential` then `cycleWakeUp`)
succeeded, `setLockCredential(credentialType, credential)` is invoked on
every exit path — in particular on the path where `dismissKeyguard()`
raises — and when `dismissKeyguard()` raises and restoration succeeds, the
original dismissal error is re-raised to the caller; whenever
`isLockEnabled()` returned `false`, neither `clearLockCredential` nor
`setLockCredential` is ever invoked. -/
theorem fastUnlock_restore_discipline (env : FastUnlockEnv) (ct cr : String) :
    (env.lockEnabled = true → env.clearResult = none → env.cycleResult = none →
      AdbCall.setLockCredential ct cr ∈ (fastUnlock env ct cr).1) ∧
      (env.lockEnabled = true → env.clearResult = none → env.cycleResult = none →
        ∀ e, env.dismissResult = some e → env.setResult = none →
          (fastUnlock env ct cr).2 = some e) ∧
      (env.lockEnabled = false →
        (∀ c, AdbCall.clearLockCredential c ∉ (fastUnlock env ct cr).1) ∧
          ∀ t c, AdbCall.setLockCredential t c ∉ (fastUnlock env ct cr).1) := by
  refine ⟨?_, ?_, ?_⟩
  · intro hlock hclear hcycle
    simp [fastUnlock, hlock, hclear, hcycle]
  · intro hlock hclear hcycle e hdismiss hset
    simp [fastUnlock, hlock, hclear, hcycle, hdismiss, hset]
  · intro hlock
    constructor
    · intro c
      simp [fastUnlock, hlock]
    · intro t c
      simp [fastUnlock, hlock]

/-- Witness for C7 (amended): lock enabled, clearing succeeds, dismissal
fails with `"boom"`, restoration succeeds — the restore call is in the trace
and the dismissal error is re-raised. -/
theorem fastUnlock_restore_discipline_witness :
    AdbCall.setLockCredential "pin" "0000" ∈
        (fastUnlock ⟨true, none, none, some "boom", none⟩ "pin" "0000").1 ∧
      (fastUnlock ⟨true, none, none, some "boom", none⟩ "pin" "0000").2 = some "boom" :=
  ⟨(fastUnlock_restore_discipline ⟨true, none, none, some "boom", none⟩ "pin" "0000").1
      rfl rfl rfl,
   (fastUnlock_restore_discipline ⟨true, none, none, some "boom", none⟩ "pin" "0000").2.1
      rfl rfl rfl "boom" rfl rfl⟩

/-! ## PIN unlock (`pinUnlock`, `pinUnlockWithKeyEvent`)

The two executors are embedded as pure functions of an environment fixing
the collaborator results.  Modelling assumptions (documented, deliberate):
`adb.dismissKeyguard`, `driver.findElOrEls`, `driver.getAttribute` and
`adb.shell` are modelled as always resolving — the claims under scrutiny
concern element absence and click failures — while `driver.click` may
reject (`clickResult`), and lookups may come back empty/null through the
environment. -/

/-- Abstract UI element handles. -/
abbrev Element := ℕ

/-- The collaborator calls made by the PIN executors. -/
inductive DriverCall where
  | dismissKeyguard
  | findElOrEls (selector : String) (multiple : Bool)
  | getAttribute (el : Element)
  | click (el : Option Element)
  | shellInputKeyevent (code : ℕ)
  | keyevent (code : ℕ)
  | isScreenLocked
deriving DecidableEq, Repr

/-- Whether a call touches UI elements (lookup or click): the element-click
path, as opposed to the keycode path. -/
def DriverCall.isElementCall : DriverCall → Bool
  | .findElOrEls _ _ => true
  | .getAttribute _ => true
  | .click _ => true
  | _ => false

/-- Environment of one PIN-unlock run. `digitTextEls` is the result of the
multi-element lookup for `com.android.systemui:id/digit_text` (API ≥ 21);
`elText` the `text` attribute of an element; `perDigitEl` the result of the
per-digit single-element lookup (API < 21, `null` modelled as `none`);
`clickResult` the outcome of clicking a (possibly undefined) element
reference; `screenLocked` the poll result inside `waitForUnlock`. -/
structure PinEnv where
  apiLevel : ℕ
  digitTextEls : List Element
  elText : Element → String
  perDigitEl : Char → Option Element
  clickResult : Option Element → Option String
  screenLocked : Bool

/-- Embedding of `stringKeyToArr(key)`:
```${key}`.trim().replace(/\s+/g, '').split(/\s*/)`` — trimming followed by
removal of all whitespace followed by a split into single characters, i.e.
the non-whitespace characters of the key in order. -/
def stringKeyToArr (key : String) : List Char :=
  key.data.filter fun c => !jsWhitespace c

/-- JavaScript `parseInt(pin, 10)` for a single digit character. -/
def digitVal (c : Char) : ℕ := c.toNat - 48

/-- The fixed identifier of the numeric-keypad elements (API ≥ 21). -/
def digitTextId : String := "com.android.systemui:id/digit_text"

/-- The per-digit element identifier (API < 21). -/
def keyguardKeyId (pin : Char) : String :=
  "com.android.keyguard:id/key" ++ String.mk [pin]

/-- Result of a PIN executor: the collaborator-call trace, the outcome
(`none` = normal return, `some e` = error `e` propagated), and whether the
key-event fallback was taken. -/
structure PinResult where
  trace : List DriverCall
  outcome : Option String
  fellBack : Bool

/-- Embedding of `waitForUnlock(adb)`: poll the lock state and, if the
screen is still locked, send the Enter keycode (66). -/
def waitForUnlockTrace (env : PinEnv) : List DriverCall :=
  if env.screenLocked then [DriverCall.isScreenLocked, DriverCall.keyevent 66]
  else [DriverCall.isScreenLocked]

/-- The digit→element map built by `pinUnlock` on API ≥ 21: iterate the
found elements, storing each under its `text` attribute (later elements
overwrite earlier ones), then look the requested digit up.  A digit whose
text never occurs maps to `undefined` (`none`). -/
def digitEl (els : List Element) (elText : Element → String) (d : Char) : Option Element :=
  (els.filter fun e => elText e == String.mk [d]).getLast?

/-- Embedding of `pinUnlockWithKeyEvent(adb, driver, capabilities)`:
dismiss the keyguard, send `input keyevent (digit + 7)` per digit, then
wait for unlock.  It contains no element lookup, no click, and no further
fallback. -/
def pinUnlockWithKeyEvent (env : PinEnv) (unlockKey : String) : PinResult where
  trace := DriverCall.dismissKeyguard ::
    (((stringKeyToArr unlockKey).map fun pin =>
        DriverCall.shellInputKeyevent (digitVal pin + 7)) ++
      waitForUnlockTrace env)
  outcome := none
  fellBack := false

/-- The click loop of `pinUnlock` on API ≥ 21: click the mapped element for
each requested digit in order; a rejected click aborts the loop and
propagates its error. -/
def clickKeysHigh (env : PinEnv) : List Char → List DriverCall × Option String
  | [] => ([], none)
  | pin :: rest =>
    match env.clickResult (digitEl env.digitTextEls env.elText pin) with
    | some e => ([DriverCall.click (digitEl env.digitTextEls env.elText pin)], some e)
    | none =>
      let r := clickKeysHigh env rest
      (DriverCall.click (digitEl env.digitTextEls env.elText pin) :: r.1, r.2)

/-- The per-digit loop of `pinUnlock` on API < 21: look the digit's element
up; on `null`, return the result of `pinUnlockWithKeyEvent` (the one-shot
fallback); otherwise click it, propagating a click error; after the last
digit, wait for unlock. -/
def pinUnlockLowLoop (env : PinEnv) (unlockKey : String) : List Char → PinResult
  | [] => { trace := waitForUnlockTrace env, outcome := none, fellBack := false }
  | pin :: rest =>
    match env.perDigitEl pin with
    | none =>
      let r := pinUnlockWithKeyEvent env unlockKey
      { trace := DriverCall.findElOrEls (keyguardKeyId pin) false :: r.trace,
        outcome := r.outcome, fellBack := true }
    | some el =>
      match env.clickResult (some el) with
      | some e =>
        { trace := [DriverCall.findElOrEls (keyguardKeyId pin) false,
            DriverCall.click (some el)],
          outcome := some e, fellBack := false }
      | none =>
        let r := pinUnlockLowLoop env unlockKey rest
        { trace := DriverCall.findElOrEls (keyguardKeyId pin) false ::
            DriverCall.click (some el) :: r.trace,
          outcome := r.outcome, fellBack := r.fellBack }

/-- Embedding of `pinUnlock(adb, driver, capabilities)`: dismiss the
keyguard; on API ≥ 21 look the keypad elements up (falling back to the
keycode path when the result is empty), read each element's text, then
click per digit and wait for unlock (skipped when a click rejected); on
API < 21 run the per-digit loop. -/
def pinUnlock (env : PinEnv) (unlockKey : String) : PinResult :=
  if 21 ≤ env.apiLevel then
    if env.digitTextEls.isEmpty then
      let r := pinUnlockWithKeyEvent env unlockKey
      { trace := DriverCall.dismissKeyguard ::
          DriverCall.findElOrEls digitTextId true :: r.trace,
        outcome := r.outcome, fellBack := true }
    else
      let r := clickKeysHigh env (stringKeyToArr unlockKey)
      { trace := DriverCall.dismissKeyguard ::
          DriverCall.findElOrEls digitTextId true ::
            (env.digitTextEls.map DriverCall.getAttribute ++ r.1 ++
              (match r.2 with | none => waitForUnlockTrace env | some _ => [])),
        outcome := r.2, fellBack := false }
  else
    let r := pinUnlockLowLoop env unlockKey (stringKeyToArr unlockKey)
    { trace := DriverCall.dismissKeyguard :: r.trace, outcome := r.outcome,
      fellBack := r.fellBack }

/-- On API < 21 with no click failures, the per-digit loop falls back iff
some digit's element lookup returns `null`. -/
theorem pinUnlockLowLoop_fellBack_iff (env : PinEnv) (key : String)
    (hclick : ∀ oe, env.clickResult oe = none) :
    ∀ l : List Char,
      (pinUnlockLowLoop env key l).fellBack = true ↔ ∃ d ∈ l, env.perDigitEl d = none := by
  intro l
  induction l with
  | nil => simp [pinUnlockLowLoop]
  | cons pin rest ih =>
    cases hp : env.perDigitEl pin with
    | none =>
      simp only [pinUnlockLowLoop, hp]
      exact iff_of_true trivial ⟨pin, List.mem_cons_self pin rest, hp⟩
    | some el =>
      have hc := hclick (some el)
      simp only [pinUnlockLowLoop, hp, hc]
      rw [ih]
      constructor
      · rintro ⟨d, hd, hnone⟩
        exact ⟨d, List.mem_cons_of_mem pin hd, hnone⟩
      · rintro ⟨d, hd, hnone⟩
        rcases List.mem_cons.mp hd with rfl | hd'
        · rw [hp] at hnone
          cases hnone
        · exact ⟨d, hd', hnone⟩

/-- Regardless of click behaviour, the per-digit loop falls back only when
some digit's element lookup returned `null`. -/
theorem pinUnlockLowLoop_fellBack_imp (env : PinEnv) (key : String) :
    ∀ l : List Char, (pinUnlockLowLoop env key l).fellBack = true →
      ∃ d ∈ l, env.perDigitEl d = none := by
  intro l
  induction l with
  | nil => intro h; cases h
  | cons pin rest ih =>
    intro h
    cases hp : env.perDigitEl pin with
    | none => exact ⟨pin, List.mem_cons_self pin rest, hp⟩
    | some el =>
      simp only [pinUnlockLowLoop, hp] at h
      cases hc : env.clickResult (some el) with
      | some e => simp [hc] at h
      | none =>
        simp only [hc] at h
        obtain ⟨d, hd, hnone⟩ := ih h
        exact ⟨d, List.mem_cons_of_mem pin hd, hnone⟩

/-- On API ≥ 21, `pinUnlock` falls back iff the keypad lookup came back
empty. -/
theorem pinUnlock_fellBack_high_iff (env : PinEnv) (key : String)
    (h21 : 21 ≤ env.apiLevel) :
    (pinUnlock env key).fellBack = true ↔ env.digitTextEls = [] := by
  by_cases he : env.digitTextEls.isEmpty
  · simp [pinUnlock, if_pos h21, he, List.isEmpty_iff.mp he]
  · have : ¬env.digitTextEls = [] := fun h => he (by simp [h])
    simp [pinUnlock, if_pos h21, he, this]

/-- A click failure in the API ≥ 21 loop aborts it with that error when all
earlier clicks succeeded. -/
theorem clickKeysHigh_error (env : PinEnv) :
    ∀ (pre : List Char) (d : Char) (post : List Char) (e : String),
      (∀ p ∈ pre, env.clickResult (digitEl env.digitTextEls env.elText p) = none) →
      env.clickResult (digitEl env.digitTextEls env.elText d) = some e →
      (clickKeysHigh env (pre ++ d :: post)).2 = some e := by
  intro pre
  induction pre with
  | nil =>
    intro d post e _ hd
    simp [clickKeysHigh, hd]
  | cons p pre' ih =>
    intro d post e hpre hd
    have hp : env.clickResult (digitEl env.digitTextEls env.elText p) = none :=
      hpre p (List.mem_cons_self p pre')
    simp only [List.cons_append, clickKeysHigh, hp]
    exact ih d post e (fun q hq => hpre q (List.mem_cons_of_mem p hq)) hd

/-- With no click failures, the API ≥ 21 loop clicks the mapped element of
every digit in order and succeeds. -/
theorem clickKeysHigh_all_ok (env : PinEnv)
    (hclick : ∀ oe, env.clickResult oe = none) :
    ∀ l : List Char,
      clickKeysHigh env l =
        (l.map fun p => DriverCall.click (digitEl env.digitTextEls env.elText p), none) := by
  intro l
  induction l with
  | nil => rfl
  | cons pin rest ih =>
    simp [clickKeysHigh, hclick (digitEl env.digitTextEls env.elText pin), ih]

/-- A click failure in the API < 21 loop aborts it with that error when all
earlier digits were found and clicked successfully. -/
theorem pinUnlockLowLoop_click_error (env : PinEnv) (key : String) :
    ∀ (pre : List Char) (d : Char) (post : List Char) (el : Element) (e : String),
      (∀ p ∈ pre, ∃ elp, env.perDigitEl p = some elp ∧ env.clickResult (some elp) = none) →
      env.perDigitEl d = some el → env.clickResult (some el) = some e →
      (pinUnlockLowLoop env key (pre ++ d :: post)).outcome = some e ∧
        (pinUnlockLowLoop env key (pre ++ d :: post)).fellBack = false := by
  intro pre
  induction pre with
  | nil =>
    intro d post el e _ hel hc
    simp [pinUnlockLowLoop, hel, hc]
  | cons p pre' ih =>
    intro d post el e hpre hel hc
    obtain ⟨elp, hp, hcp⟩ := hpre p (List.mem_cons_self p pre')
    simp only [List.cons_append, pinUnlockLowLoop, hp, hcp]
    exact ih d post el e (fun q hq => hpre q (List.mem_cons_of_mem p hq)) hel hc

/-- C8: `pinUnlock` falls back to `pinUnlockWithKeyEvent` exactly when the
expected UI elements are absent — on API ≥ 21 when the keypad lookup is
empty, on API < 21 (with no click failures) when some digit's lookup is
`null` — never as a result of a failing click (a click error propagates to
the caller on both paths), and the fallback is one-shot:
`pinUnlockWithKeyEvent` performs no element lookup, no click, and no
further fallback. -/
theorem pinUnlock_fallback_policy :
    (∀ (env : PinEnv) (key : String), 21 ≤ env.apiLevel →
      ((pinUnlock env key).fellBack = true ↔ env.digitTextEls = [])) ∧
      (∀ (env : PinEnv) (key : String), env.apiLevel < 21 →
        (∀ oe : Option Element, env.clickResult oe = none) →
        ((pinUnlock env key).fellBack = true ↔
          ∃ d ∈ stringKeyToArr key, env.perDigitEl d = none)) ∧
      (∀ (env : PinEnv) (key : String), (pinUnlock env key).fellBack = true →
        (21 ≤ env.apiLevel ∧ env.digitTextEls = []) ∨
          (env.apiLevel < 21 ∧ ∃ d ∈ stringKeyToArr key, env.perDigitEl d = none)) ∧
      (∀ (env : PinEnv) (key : String) (pre : List Char) (d : Char) (post : List Char)
          (e : String),
        21 ≤ env.apiLevel → env.digitTextEls ≠ [] →
        stringKeyToArr key = pre ++ d :: post →
        (∀ p ∈ pre, env.clickResult (digitEl env.digitTextEls env.elText p) = none) →
        env.clickResult (digitEl env.digitTextEls env.elText d) = some e →
        (pinUnlock env key).outcome = some e ∧ (pinUnlock env key).fellBack = false) ∧
      (∀ (env : PinEnv) (key : String) (pre : List Char) (d : Char) (post : List Char)
          (el : Element) (e : String),
        env.apiLevel < 21 →
        stringKeyToArr key = pre ++ d :: post →
        (∀ p ∈ pre, ∃ elp, env.perDigitEl p = some elp ∧
          env.clickResult (some elp) = none) →
        env.perDigitEl d = some el → env.clickResult (some el) = some e →
        (pinUnlock env key).outcome = some e ∧ (pinUnlock env key).fellBack = false) ∧
      (∀ (env : PinEnv) (key : String),
        (pinUnlockWithKeyEvent env key).fellBack = false ∧
          ∀ c ∈ (pinUnlockWithKeyEvent env key).trace, DriverCall.isElementCall c = false) := by
  refine ⟨?_, ?_, ?_, ?_, ?_, ?_⟩
  · exact pinUnlock_fellBack_high_iff
  · intro env key hlt hclick
    have h21 : ¬21 ≤ env.apiLevel := by omega
    simp only [pinUnlock, if_neg h21]
    exact pinUnlockLowLoop_fellBack_iff env key hclick _
  · intro env key h
    by_cases h21 : 21 ≤ env.apiLevel
    · exact Or.inl ⟨h21, (pinUnlock_fellBack_high_iff env key h21).mp h⟩
    · refine Or.inr ⟨by omega, ?_⟩
      simp only [pinUnlock, if_neg h21] at h
      exact pinUnlockLowLoop_fellBack_imp env key _ h
  · intro env key pre d post e h21 hne hkeys hpre hd
    have hempty : ¬env.digitTextEls.isEmpty := fun hcontra => hne (List.isEmpty_iff.mp hcontra)
    simp only [pinUnlock, if_pos h21, if_neg hempty]
    rw [hkeys]
    exact ⟨clickKeysHigh_error env pre d post e hpre hd, trivial⟩
  · intro env key pre d post el e hlt hkeys hpre hel hc
    have h21 : ¬21 ≤ env.apiLevel := by omega
    obtain ⟨ho, hf⟩ := pinUnlockLowLoop_click_error env key pre d post el e hpre hel hc
    simp only [pinUnlock, if_neg h21]
    rw [hkeys]
    exact ⟨ho, hf⟩
  · intro env key
    refine ⟨rfl, ?_⟩
    intro c hc
    simp only [pinUnlockWithKeyEvent] at hc
    rcases List.mem_cons.mp hc with rfl | hc'
    · rfl
    rcases List.mem_append.mp hc' with hm | hw
    · obtain ⟨pin, _, rfl⟩ := List.mem_map.mp hm
      rfl
    · by_cases hs : env.screenLocked <;> simp [waitForUnlockTrace, hs] at hw <;>
        rcases hw with rfl | rfl <;> rfl

/-- Witness for C8 at API level 23 with an empty keypad lookup: the
fallback is taken. -/
theorem pinUnlock_fallback_policy_witness :
    (pinUnlock ⟨23, [], fun _ => "", fun _ => none, fun _ => none, false⟩ "1234").fellBack =
      true :=
  (pinUnlock_fallback_policy.1 ⟨23, [], fun _ => "", fun _ => none, fun _ => none, false⟩
    "1234" (by decide)).mpr rfl

/-- C9: on API ≥ 21, when the keypad lookup is non-empty but no element's
text equals some requested digit, `pinUnlock` neither falls back nor raises
a descriptive error for that digit: the digit→element map lookup yields no
element (`undefined`) and `click` is invoked with that undefined element
reference (assuming clicks do not themselves reject, the run completes
normally). -/
theorem pinUnlock_missing_digit_clicks_undefined (env : PinEnv) (key : String) (d : Char)
    (h21 : 21 ≤ env.apiLevel) (hne : env.digitTextEls ≠ [])
    (hmem : d ∈ stringKeyToArr key)
    (hmiss : ∀ el ∈ env.digitTextEls, env.elText el ≠ String.mk [d])
    (hclick : ∀ oe : Option Element, env.clickResult oe = none) :
    digitEl env.digitTextEls env.elText d = none ∧
      DriverCall.click none ∈ (pinUnlock env key).trace ∧
      (pinUnlock env key).fellBack = false ∧
      (pinUnlock env key).outcome = none := by
  have hd_none : digitEl env.digitTextEls env.elText d = none := by
    have hfilter : env.digitTextEls.filter (fun e => env.elText e == String.mk [d]) = [] := by
      rw [List.filter_eq_nil_iff]
      intro a ha
      simp [hmiss a ha]
    simp [digitEl, hfilter]
  have hempty : ¬env.digitTextEls.isEmpty := fun hcontra => hne (List.isEmpty_iff.mp hcontra)
  have hloop := clickKeysHigh_all_ok env hclick (stringKeyToArr key)
  refine ⟨hd_none, ?_, ?_, ?_⟩
  · simp only [pinUnlock, if_pos h21, if_neg hempty, hloop, List.mem_cons, List.mem_append]
    right; right; left; right
    exact List.mem_map.mpr ⟨d, hmem, by rw [hd_none]⟩
  · simp only [pinUnlock, if_pos h21, if_neg hempty]
  · simp only [pinUnlock, if_pos h21, if_neg hempty, hloop]

/-- Witness for C9: API 23, one keypad element whose text is `"1"`, and the
requested digit `'2'` — the element map misses it and `click` receives the
undefined reference. -/
theorem pinUnlock_missing_digit_clicks_undefined_witness :
    DriverCall.click none ∈
      (pinUnlock ⟨23, [5], fun _ => "1", fun _ => none, fun _ => none, false⟩ "2").trace :=
  (pinUnlock_missing_digit_clicks_undefined
    ⟨23, [5], fun _ => "1", fun _ => none, fun _ => none, false⟩ "2" '2'
    (by decide) (by decide) (by decide) (by decide) (fun _ => rfl)).2.1

end Unlock
